import Mathlib

/-!
Verification development for the document structuring pipeline
(`scripts/document_structurer.py`): a shallow embedding of its token and
document data model, format parsers, knowledge graph and hashing, together
with theorems settling the specification's claims about them.

Modelling conventions:
* Python `str` is Lean `String`; Python byte values are `Nat` (< 256).
* Python `dict` (insertion ordered) is an association list
  `List (String × α)`; updating an existing key keeps its position.
* Python `set` is `Finset String` (iteration order is irrelevant to every
  claim, and all set updates performed by the code commute).
* Python floats that are only stored, never computed with
  (`confidence`, `st_mtime`) are modelled as `Rat`.
* The optional third-party libraries (`ruamel.yaml`, `hcl2`, `json`,
  `networkx`, `hashlib`) are respectively: parameters producing a parsed
  tree (`PyValue`), an explicit edge set with executable reachability, and
  a full SHA-256 implementation.
* Regular-expression scans (`re.finditer`) are embedded as character-list
  scanners reproducing the leftmost, greedy-with-backtracking semantics of
  each concrete pattern in the source.
-/

namespace DocStructurer

/-- `TokenType` — the `Enum` of token categories in the source. -/
inductive TokenType where
  | STRING
  | QUOTED_STRING
  | ASSIGNMENT
  | CODE_BLOCK
  | INLINE_CODE
  | WORD
  | URL
  | PATH
  | VARIABLE
  | HEADER
  | LIST_ITEM
  | KEY
  | VALUE
  | COMMENT
  | IMPORT_
  | REFERENCE
deriving DecidableEq, Repr

/-- `Token` — structured token with complete metadata (dataclass `Token`). -/
structure Token where
  token_type : TokenType
  value : String
  raw : String
  file : String
  line : Option Nat
  col : Option Nat
  context : Option String
  confidence : Rat
deriving DecidableEq, Repr

/-- `Document` — document metadata and structure (dataclass `Document`). -/
structure Document where
  path : String
  relative_path : String
  file_type : String
  size : Nat
  hash : String
  modified : Rat
  tokens : List Token
  links : Finset String
  headers : List String
  summary : Option String
deriving DecidableEq

/-- `BaseParser.create_token`: stamps the owning file, defaults the
optional fields, `confidence` stays at its default `1.0`. -/
def create_token (token_type : TokenType) (value raw file : String)
    (line col : Option Nat) (context : Option String) : Token :=
  { token_type := token_type, value := value, raw := raw, file := file,
    line := line, col := col, context := context, confidence := 1 }

/-! ### Python dict / defaultdict helpers

Insertion-ordered association lists: assigning to an existing key replaces
the value in place; a new key is appended at the end. -/

/-- `d[k] = v` on an insertion-ordered dict. -/
def dictSet (k : String) (v : α) : List (String × α) → List (String × α)
  | [] => [(k, v)]
  | (k', v') :: rest =>
    if k' = k then (k, v) :: rest else (k', v') :: dictSet k v rest

/-- `d.get(k)` on a dict. -/
def dictLookup (k : String) : List (String × α) → Option α
  | [] => none
  | (k', v) :: rest => if k' = k then some v else dictLookup k rest

/-- The keys of a dict, in order. -/
def dictKeys (d : List (String × α)) : List String := d.map Prod.fst

/-- `defaultdict(list)`: `d[k].append(t)` (creates `k` with `[t]` when
absent). -/
def dictAppend (k : String) (t : Token) :
    List (String × List Token) → List (String × List Token)
  | [] => [(k, [t])]
  | (k', ts) :: rest =>
    if k' = k then (k', ts ++ [t]) :: rest else (k', ts) :: dictAppend k t rest

/-- `defaultdict(set)`: add every element of `s` to `d[k]` (creates the key
when absent). Used only with nonempty `s`. -/
def dictUnion (k : String) (s : Finset String) :
    List (String × Finset String) → List (String × Finset String)
  | [] => [(k, s)]
  | (k', s') :: rest =>
    if k' = k then (k', s' ∪ s) :: rest else (k', s') :: dictUnion k s rest

/-! ### networkx model

`networkx` is an external library. `nx.DiGraph` built solely through
`add_edge` calls is an edge set; its node set is the set of edge
endpoints. `nx.descendants G s` is the set of nodes reachable from `s` by
a directed path, excluding `s` itself, and raises `NetworkXError` exactly
when `s` is not a node of `G`; `nx.ancestors` is the same on the reversed
graph. Reachability is computed executably by iterating a one-step
successor expansion to saturation. -/

/-- Nodes of an edge set: all endpoints. -/
def graphNodes (es : Finset (String × String)) : Finset String :=
  es.image Prod.fst ∪ es.image Prod.snd

/-- Direct successors of `x` in the edge set. -/
def succs (es : Finset (String × String)) (x : String) : Finset String :=
  (es.filter (fun e => e.1 = x)).image Prod.snd

/-- One expansion step of the reachable set. -/
def stepSet (es : Finset (String × String)) (S : Finset String) :
    Finset String :=
  S ∪ S.biUnion (succs es)

/-- Iterated expansion. -/
def iterStep (es : Finset (String × String)) :
    Nat → Finset String → Finset String
  | 0, S => S
  | n + 1, S => iterStep es n (stepSet es S)

/-- All nodes reachable from `p` (including `p`); `es.card + 1` expansion
steps always reach the fixed point. -/
def reachSet (es : Finset (String × String)) (p : String) : Finset String :=
  iterStep es (es.card + 1) {p}

/-- `nx.descendants`. -/
def nxDescendants (es : Finset (String × String)) (p : String) :
    Finset String :=
  (reachSet es p).erase p

/-- `nx.ancestors`: descendants in the reversed graph. -/
def nxAncestors (es : Finset (String × String)) (p : String) :
    Finset String :=
  nxDescendants (es.image Prod.swap) p

/-- The directed edge relation of an edge set (spec-side notion used to
state reachability claims). -/
def EdgeRel (es : Finset (String × String)) (a b : String) : Prop :=
  (a, b) ∈ es

/-! ### KnowledgeGraph -/

/-- `KnowledgeGraph` state: `documents`, `token_index`,
`file_relationships`, and the optional `networkx` digraph (`none` models
`HAS_NETWORKX = False`, where `self.graph = None`). -/
structure KnowledgeGraph where
  documents : List (String × Document)
  token_index : List (String × List Token)
  file_relationships : List (String × Finset String)
  graph : Option (Finset (String × String))
deriving DecidableEq

/-- `KnowledgeGraph.__init__`. -/
def KnowledgeGraph.init (hasNetworkx : Bool) : KnowledgeGraph :=
  { documents := [], token_index := [], file_relationships := [],
    graph := if hasNetworkx then some ∅ else none }

/-- `KnowledgeGraph.add_document`: store the document under its relative
path, append each token to `token_index[token.value]`, and for each link
add it to `file_relationships[doc.relative_path]` and (when the graph
engine is present) add the corresponding edge. The per-link loop over the
set `doc.links` is embedded as the set unions it computes; when
`doc.links` is empty (card zero) the loop body never runs and neither map
is touched. -/
def KnowledgeGraph.add_document (kg : KnowledgeGraph) (doc : Document) :
    KnowledgeGraph :=
  { documents := dictSet doc.relative_path doc kg.documents
    token_index :=
      doc.tokens.foldl (fun idx t => dictAppend t.value t idx) kg.token_index
    file_relationships :=
      if doc.links.card = 0 then kg.file_relationships
      else dictUnion doc.relative_path doc.links kg.file_relationships
    graph :=
      kg.graph.map (fun g =>
        g ∪ doc.links.image (fun l => (doc.relative_path, l))) }

/-- `KnowledgeGraph.get_related_documents`: without the graph engine,
`file_relationships.get(filepath, set())`; with it,
`descendants ∪ ancestors`, where the `NetworkXError` raised for a
`filepath` that is not a node is caught and yields the empty set. The
`max_depth` parameter is accepted but never used, exactly as in the
source. -/
def KnowledgeGraph.get_related_documents (kg : KnowledgeGraph)
    (filepath : String) (max_depth : Nat) : Finset String :=
  match kg.graph with
  | none => (dictLookup filepath kg.file_relationships).getD ∅
  | some es =>
    if filepath ∈ graphNodes es then
      nxDescendants es filepath ∪ nxAncestors es filepath
    else ∅

/-- Folding `add_document` over a list of documents starting from a fresh
graph: the state reached by any ingestion run. -/
def buildKG (hasNetworkx : Bool) (docs : List Document) : KnowledgeGraph :=
  docs.foldl KnowledgeGraph.add_document (KnowledgeGraph.init hasNetworkx)

/-! ### Correctness of the executable reachability -/

theorem mem_succs {es : Finset (String × String)} {x q : String} :
    q ∈ succs es x ↔ (x, q) ∈ es := by
  unfold succs
  simp only [Finset.mem_image, Finset.mem_filter]
  constructor
  · rintro ⟨⟨a, b⟩, ⟨hab, ha⟩, hb⟩
    simp only at ha hb
    subst ha; subst hb; exact hab
  · intro h
    exact ⟨(x, q), ⟨h, rfl⟩, rfl⟩

theorem subset_stepSet {es : Finset (String × String)} {S : Finset String} :
    S ⊆ stepSet es S :=
  Finset.subset_union_left

theorem subset_iterStep (es : Finset (String × String)) :
    ∀ (n : Nat) (S : Finset String), S ⊆ iterStep es n S := by
  intro n
  induction n with
  | zero => intro S; exact le_refl S
  | succ n ih =>
    intro S
    exact subset_stepSet.trans (ih (stepSet es S))

theorem iterStep_fixed (es : Finset (String × String)) :
    ∀ (n : Nat) (S : Finset String), stepSet es S = S → iterStep es n S = S := by
  intro n
  induction n with
  | zero => intro S _; rfl
  | succ n ih =>
    intro S h
    show iterStep es n (stepSet es S) = S
    rw [h]; exact ih S h

theorem iterStep_sound (es : Finset (String × String)) :
    ∀ (n : Nat) (S : Finset String) (q : String), q ∈ iterStep es n S →
      ∃ x ∈ S, Relation.ReflTransGen (EdgeRel es) x q := by
  intro n
  induction n with
  | zero =>
    intro S q hq
    exact ⟨q, hq, Relation.ReflTransGen.refl⟩
  | succ n ih =>
    intro S q hq
    obtain ⟨x, hx, hxq⟩ := ih (stepSet es S) q hq
    rcases Finset.mem_union.mp hx with h | h
    · exact ⟨x, h, hxq⟩
    · obtain ⟨y, hy, hyx⟩ := Finset.mem_biUnion.mp h
      exact ⟨y, hy, Relation.ReflTransGen.head (mem_succs.mp hyx) hxq⟩

theorem iterStep_growth (es : Finset (String × String)) :
    ∀ (n : Nat) (S : Finset String),
      stepSet es (iterStep es n S) = iterStep es n S ∨
        S.card + n ≤ (iterStep es n S).card := by
  intro n
  induction n with
  | zero => intro S; right; simp [iterStep]
  | succ n ih =>
    intro S
    by_cases h : stepSet es S = S
    · left
      rw [iterStep_fixed es (n + 1) S h, h]
    · rcases ih (stepSet es S) with h1 | h1
      · left; exact h1
      · right
        have hss : S ⊂ stepSet es S :=
          Finset.ssubset_iff_subset_ne.mpr ⟨subset_stepSet, fun he => h he.symm⟩
        have hc : S.card + 1 ≤ (stepSet es S).card := Finset.card_lt_card hss
        show S.card + (n + 1) ≤ (iterStep es n (stepSet es S)).card
        omega

theorem stepSet_bounded {es : Finset (String × String)} {p : String}
    {S : Finset String} (h : S ⊆ insert p (es.image Prod.snd)) :
    stepSet es S ⊆ insert p (es.image Prod.snd) := by
  intro q hq
  rcases Finset.mem_union.mp hq with hq | hq
  · exact h hq
  · obtain ⟨y, _, hyq⟩ := Finset.mem_biUnion.mp hq
    have : (y, q) ∈ es := mem_succs.mp hyq
    exact Finset.mem_insert_of_mem (Finset.mem_image_of_mem Prod.snd this)

theorem iterStep_bounded (es : Finset (String × String)) (p : String) :
    ∀ (n : Nat) (S : Finset String), S ⊆ insert p (es.image Prod.snd) →
      iterStep es n S ⊆ insert p (es.image Prod.snd) := by
  intro n
  induction n with
  | zero => intro S h; exact h
  | succ n ih => intro S h; exact ih (stepSet es S) (stepSet_bounded h)

theorem reachSet_saturated (es : Finset (String × String)) (p : String) :
    stepSet es (reachSet es p) = reachSet es p := by
  rcases iterStep_growth es (es.card + 1) {p} with h | h
  · exact h
  · exfalso
    have hb : iterStep es (es.card + 1) {p} ⊆ insert p (es.image Prod.snd) :=
      iterStep_bounded es p (es.card + 1) {p} (by
        intro x hx
        rw [Finset.mem_singleton.mp hx]
        exact Finset.mem_insert_self p _)
    have hc1 : (iterStep es (es.card + 1) {p}).card ≤
        (insert p (es.image Prod.snd)).card := Finset.card_le_card hb
    have hc2 : (insert p (es.image Prod.snd)).card ≤
        (es.image Prod.snd).card + 1 := Finset.card_insert_le _ _
    have hc3 : (es.image Prod.snd).card ≤ es.card := Finset.card_image_le
    have hcard : ({p} : Finset String).card = 1 := Finset.card_singleton p
    omega

theorem mem_reachSet_self (es : Finset (String × String)) (p : String) :
    p ∈ reachSet es p :=
  subset_iterStep es (es.card + 1) {p} (Finset.mem_singleton_self p)

theorem reachSet_complete (es : Finset (String × String)) {p q : String}
    (h : Relation.ReflTransGen (EdgeRel es) p q) : q ∈ reachSet es p := by
  induction h with
  | refl => exact mem_reachSet_self es p
  | tail _ hbc ih =>
    rw [← reachSet_saturated es p]
    apply Finset.mem_union_right
    exact Finset.mem_biUnion.mpr ⟨_, ih, mem_succs.mpr hbc⟩

theorem mem_reachSet (es : Finset (String × String)) (p q : String) :
    q ∈ reachSet es p ↔ Relation.ReflTransGen (EdgeRel es) p q := by
  constructor
  · intro h
    obtain ⟨x, hx, hxq⟩ := iterStep_sound es (es.card + 1) {p} q h
    rw [Finset.mem_singleton.mp hx] at hxq
    exact hxq
  · exact reachSet_complete es

theorem mem_nxDescendants (es : Finset (String × String)) (p q : String) :
    q ∈ nxDescendants es p ↔ q ≠ p ∧ Relation.TransGen (EdgeRel es) p q := by
  unfold nxDescendants
  rw [Finset.mem_erase, mem_reachSet,
    Relation.reflTransGen_iff_eq_or_transGen]
  constructor
  · rintro ⟨hne, h | h⟩
    · exact absurd h hne
    · exact ⟨hne, h⟩
  · rintro ⟨hne, h⟩
    exact ⟨hne, Or.inr h⟩

theorem edgeRel_swap (es : Finset (String × String)) :
    EdgeRel (es.image Prod.swap) = Function.swap (EdgeRel es) := by
  funext a b
  unfold EdgeRel Function.swap
  apply propext
  constructor
  · intro h
    obtain ⟨⟨x, y⟩, hxy, he⟩ := Finset.mem_image.mp h
    obtain ⟨h1, h2⟩ := Prod.mk.injEq .. ▸ he
    subst h1; subst h2; exact hxy
  · intro h
    exact Finset.mem_image.mpr ⟨(b, a), h, rfl⟩

theorem mem_nxAncestors (es : Finset (String × String)) (p q : String) :
    q ∈ nxAncestors es p ↔ q ≠ p ∧ Relation.TransGen (EdgeRel es) q p := by
  unfold nxAncestors
  rw [mem_nxDescendants, edgeRel_swap]
  constructor
  · rintro ⟨hne, h⟩
    exact ⟨hne, (Relation.transGen_swap).mp h⟩
  · rintro ⟨hne, h⟩
    exact ⟨hne, (Relation.transGen_swap).mpr h⟩

theorem transGen_src_mem {es : Finset (String × String)} {p q : String}
    (h : Relation.TransGen (EdgeRel es) p q) : p ∈ graphNodes es := by
  induction h with
  | single h =>
    exact Finset.mem_union_left _ (Finset.mem_image_of_mem Prod.fst h)
  | tail _ _ ih => exact ih

theorem transGen_dst_mem {es : Finset (String × String)} {p q : String}
    (h : Relation.TransGen (EdgeRel es) q p) : p ∈ graphNodes es := by
  induction h with
  | single h =>
    exact Finset.mem_union_right _ (Finset.mem_image_of_mem Prod.snd h)
  | tail _ h _ =>
    exact Finset.mem_union_right _ (Finset.mem_image_of_mem Prod.snd h)

/-! ### Dict lemmas -/

theorem dictSet_dictSet (k : String) (v w : α) (l : List (String × α)) :
    dictSet k v (dictSet k w l) = dictSet k v l := by
  induction l with
  | nil => simp [dictSet]
  | cons h t ih =>
    obtain ⟨k', v'⟩ := h
    by_cases hk : k' = k
    · subst hk; simp [dictSet]
    · simp [dictSet, hk, ih]

theorem dictLookup_dictSet (k : String) (v : α) (l : List (String × α)) :
    dictLookup k (dictSet k v l) = some v := by
  induction l with
  | nil => simp [dictSet, dictLookup]
  | cons h t ih =>
    obtain ⟨k', v'⟩ := h
    by_cases hk : k' = k
    · subst hk; simp [dictSet, dictLookup]
    · simp [dictSet, dictLookup, hk, ih]

theorem dictUnion_dictUnion (k : String) (s : Finset String)
    (l : List (String × Finset String)) :
    dictUnion k s (dictUnion k s l) = dictUnion k s l := by
  induction l with
  | nil => simp [dictUnion, Finset.union_assoc]
  | cons h t ih =>
    obtain ⟨k', s'⟩ := h
    by_cases hk : k' = k
    · subst hk; simp [dictUnion, Finset.union_assoc]
    · simp [dictUnion, hk, ih]

@[simp] theorem dictKeys_nil : dictKeys ([] : List (String × α)) = [] := rfl

@[simp] theorem dictKeys_cons (k : String) (v : α) (l : List (String × α)) :
    dictKeys ((k, v) :: l) = k :: dictKeys l := rfl

theorem mem_dictKeys_dictAppend {k' k : String} {t : Token}
    {l : List (String × List Token)}
    (h : k' ∈ dictKeys (dictAppend k t l)) : k' = k ∨ k' ∈ dictKeys l := by
  induction l with
  | nil =>
    simp [dictAppend] at h
    exact Or.inl h
  | cons hd tl ih =>
    obtain ⟨k0, ts0⟩ := hd
    by_cases hk : k0 = k
    · subst hk
      simp [dictAppend] at h ⊢
      tauto
    · simp [dictAppend, hk] at h ⊢
      tauto

theorem mem_dictKeys_tokenFold {k : String} (tokens : List Token) :
    ∀ (idx : List (String × List Token)),
      k ∈ dictKeys (tokens.foldl (fun idx t => dictAppend t.value t idx) idx) →
      k ∈ dictKeys idx ∨ ∃ t ∈ tokens, t.value = k := by
  induction tokens with
  | nil => intro idx h; exact Or.inl h
  | cons t ts ih =>
    intro idx h
    rcases ih (dictAppend t.value t idx) h with h' | h'
    · rcases mem_dictKeys_dictAppend h' with h'' | h''
      · exact Or.inr ⟨t, List.mem_cons_self t ts, h''.symm⟩
      · exact Or.inl h''
    · obtain ⟨t', ht', hv⟩ := h'
      exact Or.inr ⟨t', List.mem_cons_of_mem t ht', hv⟩

theorem mem_dictKeys_dictSet_self (k : String) (v : α)
    (l : List (String × α)) : k ∈ dictKeys (dictSet k v l) := by
  induction l with
  | nil => simp [dictSet]
  | cons h t ih =>
    obtain ⟨k', v'⟩ := h
    by_cases hk : k' = k
    · subst hk; simp [dictSet]
    · simp only [dictSet, if_neg hk, dictKeys_cons, List.mem_cons]
      exact Or.inr ih

theorem mem_dictKeys_dictSet_of_mem {k' : String} (k : String) (v : α)
    {l : List (String × α)} (h : k' ∈ dictKeys l) :
    k' ∈ dictKeys (dictSet k v l) := by
  induction l with
  | nil => simp at h
  | cons hd t ih =>
    obtain ⟨k0, v0⟩ := hd
    by_cases hk : k0 = k
    · subst hk
      simp [dictSet] at h ⊢
      tauto
    · simp [dictSet, hk] at h ⊢
      tauto

theorem mem_dictKeys_dictUnion {k' k : String} {s : Finset String}
    {l : List (String × Finset String)}
    (h : k' ∈ dictKeys (dictUnion k s l)) : k' = k ∨ k' ∈ dictKeys l := by
  induction l with
  | nil =>
    simp [dictUnion] at h
    exact Or.inl h
  | cons hd t ih =>
    obtain ⟨k0, s0⟩ := hd
    by_cases hk : k0 = k
    · subst hk
      simp [dictUnion] at h ⊢
      tauto
    · simp [dictUnion, hk] at h ⊢
      tauto

theorem dictLookup_isSome_of_mem {k : String} {l : List (String × α)}
    (h : k ∈ dictKeys l) : (dictLookup k l).isSome := by
  induction l with
  | nil => simp at h
  | cons hd t ih =>
    obtain ⟨k0, v0⟩ := hd
    by_cases hk : k0 = k
    · subst hk; simp [dictLookup]
    · simp only [dictKeys_cons, List.mem_cons] at h
      rcases h with h | h
      · exact absurd h.symm hk
      · simpa [dictLookup, hk] using ih h

theorem dictLookup_mem {k : String} {v : α} {l : List (String × α)}
    (h : dictLookup k l = some v) : (k, v) ∈ l := by
  induction l with
  | nil => simp [dictLookup] at h
  | cons hd t ih =>
    obtain ⟨k0, v0⟩ := hd
    by_cases hk : k0 = k
    · subst hk
      simp only [dictLookup, if_pos] at h
      simp only [Option.some.injEq] at h
      subst h
      exact List.mem_cons_self _ _
    · simp only [dictLookup, if_neg hk] at h
      exact List.mem_cons_of_mem _ (ih h)

/-! ### KnowledgeGraph invariants -/

/-- Every key of `documents` maps to a document whose `relative_path` is
that key: `add_document` always assigns `documents[doc.relative_path] =
doc`. -/
def DocsCoherent (kg : KnowledgeGraph) : Prop :=
  ∀ p ∈ kg.documents, p.2.relative_path = p.1

theorem docsCoherent_dictSet {l : List (String × Document)} {d : Document}
    (h : ∀ p ∈ l, p.2.relative_path = p.1) :
    ∀ p ∈ dictSet d.relative_path d l, p.2.relative_path = p.1 := by
  induction l with
  | nil =>
    intro p hp
    simp only [dictSet, List.mem_singleton] at hp
    subst hp; rfl
  | cons hd t ih =>
    obtain ⟨k0, d0⟩ := hd
    by_cases hk : k0 = d.relative_path
    · subst hk
      intro p hp
      simp only [dictSet, if_pos, List.mem_cons] at hp
      rcases hp with hp | hp
      · subst hp; rfl
      · exact h p (List.mem_cons_of_mem _ hp)
    · intro p hp
      simp only [dictSet, if_neg hk, List.mem_cons] at hp
      rcases hp with hp | hp
      · subst hp; exact h (k0, d0) (List.mem_cons_self _ _)
      · exact ih (fun q hq => h q (List.mem_cons_of_mem _ hq)) p hp

/-- The invariant that settles the relationship claims: relationship keys
are document keys, and `documents` is coherent. -/
def RelKeysSound (kg : KnowledgeGraph) : Prop :=
  (∀ k ∈ dictKeys kg.file_relationships, k ∈ dictKeys kg.documents) ∧
    DocsCoherent kg

theorem relKeysSound_add {kg : KnowledgeGraph} (doc : Document)
    (h : RelKeysSound kg) : RelKeysSound (kg.add_document doc) := by
  obtain ⟨hkeys, hcoh⟩ := h
  constructor
  · intro k hk
    show k ∈ dictKeys (dictSet doc.relative_path doc kg.documents)
    by_cases hl : doc.links.card = 0
    · simp only [KnowledgeGraph.add_document, if_pos hl] at hk
      exact mem_dictKeys_dictSet_of_mem _ _ (hkeys k hk)
    · simp only [KnowledgeGraph.add_document, if_neg hl] at hk
      rcases mem_dictKeys_dictUnion hk with h' | h'
      · subst h'
        exact mem_dictKeys_dictSet_self _ _ _
      · exact mem_dictKeys_dictSet_of_mem _ _ (hkeys k h')
  · exact docsCoherent_dictSet hcoh

theorem relKeysSound_buildAux (docs : List Document) :
    ∀ kg : KnowledgeGraph, RelKeysSound kg →
      RelKeysSound (docs.foldl KnowledgeGraph.add_document kg) := by
  induction docs with
  | nil => intro kg h; exact h
  | cons d ds ih =>
    intro kg h
    exact ih (kg.add_document d) (relKeysSound_add d h)

theorem relKeysSound_buildKG (hasNetworkx : Bool) (docs : List Document) :
    RelKeysSound (buildKG hasNetworkx docs) := by
  apply relKeysSound_buildAux
  constructor
  · intro k hk
    simp [KnowledgeGraph.init, dictKeys] at hk
  · intro p hp
    simp [KnowledgeGraph.init] at hp

/-- Keys of `token_index` after any run are values of tokens of the added
documents. -/
theorem tokenIndexKeys_buildAux (docs : List Document) :
    ∀ (kg : KnowledgeGraph) (k : String),
      k ∈ dictKeys (docs.foldl KnowledgeGraph.add_document kg).token_index →
      k ∈ dictKeys kg.token_index ∨ ∃ d ∈ docs, ∃ t ∈ d.tokens, t.value = k := by
  induction docs with
  | nil => intro kg k h; exact Or.inl h
  | cons d ds ih =>
    intro kg k h
    rcases ih (kg.add_document d) k h with h' | h'
    · rcases mem_dictKeys_tokenFold d.tokens kg.token_index h' with h'' | h''
      · exact Or.inl h''
      · obtain ⟨t, ht, hv⟩ := h''
        exact Or.inr ⟨d, List.mem_cons_self d ds, t, ht, hv⟩
    · obtain ⟨d', hd', rest⟩ := h'
      exact Or.inr ⟨d', List.mem_cons_of_mem d hd', rest⟩

/-! ### Regular-expression scanners

Each `re` pattern of the source is embedded as a character-list matcher
reproducing its leftmost, greedy-with-backtracking semantics, together
with generic `finditer` drivers. Character classes are the ASCII fragment
of Python's (all inputs relevant to the claims are ASCII). -/

/-- Python `\w` (ASCII fragment): letters, digits, underscore. -/
def isWordChar (c : Char) : Bool := c.isAlphanum || c = '_'

/-- Python `\s` (ASCII fragment). -/
def isSpacePy (c : Char) : Bool :=
  c = ' ' || c = '\t' || c = '\n' || c = '\r' || c = '\x0b' || c = '\x0c'

/-- The class of `TextParser.TOKEN`: `[A-Za-z0-9_\-./:]`. -/
def isTokenChar (c : Char) : Bool :=
  c.isAlphanum || c = '_' || c = '-' || c = '.' || c = '/' || c = ':'

/-- The class of `TextParser.PATH` segments: `[A-Za-z0-9_.-]`. -/
def isPathChar (c : Char) : Bool :=
  c.isAlphanum || c = '_' || c = '.' || c = '-'

/-- Line-boundary characters of Python `str.splitlines`. -/
def isLineBreak (c : Char) : Bool :=
  c = '\n' || c = '\r' || c = '\x0b' || c = '\x0c' || c = '\x1c' ||
    c = '\x1d' || c = '\x1e' || c = '\x85' || c = '\u2028' || c = '\u2029'

def splitlinesAux : List Char → List Char → List (List Char)
  | [], [] => []
  | [], acc => [acc.reverse]
  | '\r' :: '\n' :: rest, acc => acc.reverse :: splitlinesAux rest []
  | c :: rest, acc =>
    if isLineBreak c then acc.reverse :: splitlinesAux rest []
    else splitlinesAux rest (c :: acc)

/-- Python `str.splitlines`. -/
def splitlines (s : String) : List (List Char) := splitlinesAux s.data []

/-- Python `str.strip()` (ASCII whitespace). -/
def pyStrip (s : String) : String :=
  String.mk (((s.data.dropWhile isSpacePy).reverse.dropWhile isSpacePy).reverse)

/-- Is `a` a contiguous sublist of the second argument? -/
def infixCheck (a : List Char) : List Char → Bool
  | [] => a.isEmpty
  | c :: rest => a.isPrefixOf (c :: rest) || infixCheck a rest

/-- Python `value in t` substring test. -/
def substrOf (a b : String) : Bool := infixCheck a.data b.data

/-- `re.finditer`, generic: try the matcher at every position left to
right, resuming after each match (the matcher returns the whole matched
text plus its captures). Fuel `input.length + 1` always suffices. -/
def finditerG (matchAt : List Char → Option (List Char × β)) :
    Nat → List Char → List (List Char × β)
  | 0, _ => []
  | _ + 1, [] => []
  | fuel + 1, c :: rest =>
    match matchAt (c :: rest) with
    | some (m, b) =>
      if m.isEmpty then (m, b) :: finditerG matchAt fuel rest
      else (m, b) :: finditerG matchAt fuel ((c :: rest).drop m.length)
    | none => finditerG matchAt fuel rest

/-- `re.finditer` for a `re.MULTILINE` `^`-anchored pattern: attempts only
at the start of the input and right after each `'\n'`. -/
def finditerLineStart (matchAt : List Char → Option (List Char × β)) :
    Nat → Bool → List Char → List (List Char × β)
  | 0, _, _ => []
  | _ + 1, _, [] => []
  | fuel + 1, atStart, c :: rest =>
    if atStart then
      match matchAt (c :: rest) with
      | some (m, b) =>
        if m.isEmpty then (m, b) :: finditerLineStart matchAt fuel (c = '\n') rest
        else (m, b) :: finditerLineStart matchAt fuel (m.getLast? = some '\n')
          ((c :: rest).drop m.length)
      | none => finditerLineStart matchAt fuel (c = '\n') rest
    else finditerLineStart matchAt fuel (c = '\n') rest

/-- `re.finditer` reporting match positions and feeding the previous
character to the matcher (for `\b` word-boundary tests). -/
def finditerWB (matchAt : Option Char → List Char → Option (List Char)) :
    Nat → Nat → Option Char → List Char → List (Nat × List Char)
  | 0, _, _, _ => []
  | _ + 1, _, _, [] => []
  | fuel + 1, pos, prev, c :: rest =>
    match matchAt prev (c :: rest) with
    | some m =>
      if m.isEmpty then finditerWB matchAt fuel (pos + 1) (some c) rest
      else (pos, m) :: finditerWB matchAt fuel (pos + m.length) m.getLast?
        ((c :: rest).drop m.length)
    | none => finditerWB matchAt fuel (pos + 1) (some c) rest

/-- `https?://…` at the current position: scheme (preferring the `s`
alternative first, as the regex does), then one or more characters
allowed by the nonterminal class (`[^\s]` for `TextParser.URL`,
`[^\s\)]` for `MarkdownParser.URL`). -/
def matchSchemeAt (bodyChar : Char → Bool) (cs : List Char) :
    Option (List Char × Unit) :=
  let tryOne (scheme : List Char) : Option (List Char × Unit) :=
    if scheme.isPrefixOf cs then
      let rest := cs.drop scheme.length
      let body := rest.takeWhile bodyChar
      if body.isEmpty then none else some (scheme ++ body, ())
    else none
  (tryOne "https://".data).orElse fun _ => tryOne "http://".data

/-- The `(?:/[A-Za-z0-9_.-]+)+` core of `TextParser.PATH`: as many full
`/segment` groups as possible. -/
def pathGroups : Nat → List Char → List Char × List Char
  | 0, cs => ([], cs)
  | fuel + 1, cs =>
    match cs with
    | '/' :: rest =>
      let seg := rest.takeWhile isPathChar
      if seg.isEmpty then ([], cs)
      else
        let (more, rest') := pathGroups fuel (rest.drop seg.length)
        ('/' :: (seg ++ more), rest')
    | _ => ([], cs)

/-- `TextParser.PATH` = `(?:/[A-Za-z0-9_.-]+)+/?` at the current position:
the groups, then the optional trailing slash (taken exactly when the
character after the last group is a `/` not followed by a segment
character — otherwise another group would have been consumed). -/
def matchPATHAt (cs : List Char) : Option (List Char × Unit) :=
  let (g, rest) := pathGroups cs.length cs
  if g.isEmpty then none
  else
    match rest with
    | '/' :: _ => some (g ++ ['/'], ())
    | _ => some (g, ())

/-- Wordness of an optional character (out of input counts as non-word,
as for Python's `\b`). -/
def wordness : Option Char → Bool
  | some c => isWordChar c
  | none => false

/-- Backtracking of the trailing `\b` of `TextParser.TOKEN`: the longest
`k ≤ runLength` with `k ≥ 3` such that a word boundary holds between
`cs[k-1]` and `cs[k]`. -/
def tokenLen (cs : List Char) : Nat → Option Nat
  | 0 => none
  | k + 1 =>
    if k + 1 < 3 then none
    else if wordness (cs.get? k) ≠ wordness (cs.get? (k + 1)) then some (k + 1)
    else tokenLen cs k

/-- `TextParser.TOKEN` = `\b[A-Za-z0-9_\-./:]{3,}\b` at the current
position, given the previous character. -/
def matchTOKENAt (prev : Option Char) (cs : List Char) :
    Option (List Char) :=
  match cs with
  | [] => none
  | c :: _ =>
    if ¬ isTokenChar c then none
    else if wordness prev = isWordChar c then none
    else
      let run := cs.takeWhile isTokenChar
      match tokenLen cs run.length with
      | some k => some (cs.take k)
      | none => none

/-- The URL and PATH passes of `TextParser.parse` (tokens appended before
the word pass runs). -/
def textBaseTokens (content filepath : String) : List Token :=
  let cs := content.data
  let fuel := cs.length + 1
  ((finditerG (matchSchemeAt (fun c => ¬ isSpacePy c)) fuel cs).map
    (fun mb => create_token .URL (String.mk mb.1) (String.mk mb.1)
      filepath none none none)) ++
  ((finditerG matchPATHAt fuel cs).map
    (fun mb => create_token .PATH (String.mk mb.1) (String.mk mb.1)
      filepath none none none))

/-- One generic-word candidate of `TextParser.parse`: appended only when
its text is not a substring of any token value captured so far
(`if not any(value in t.value for t in tokens)`). -/
def wordStep (filepath : String) (i : Nat) (tokens : List Token)
    (pm : Nat × List Char) : List Token :=
  let value := String.mk pm.2
  if tokens.any (fun t => substrOf value t.value) then tokens
  else tokens ++ [create_token .WORD value value filepath (some i)
    (some (pm.1 + 1)) none]

/-- The word pass of `TextParser.parse` over one (1-based) line. -/
def lineStep (filepath : String) (tokens : List Token)
    (il : Nat × List Char) : List Token :=
  (finditerWB matchTOKENAt (il.2.length + 1) 0 none il.2).foldl
    (wordStep filepath il.1) tokens

/-- `TextParser.parse`: URLs first, then paths, then per-line generic
words. -/
def TextParser.parse (content filepath : String) : List Token :=
  (List.enumFrom 1 (splitlines content)).foldl (lineStep filepath)
    (textBaseTokens content filepath)

/-! ### MarkdownParser -/

/-- Backtracking of a trailing-`\s+` split: the regex hands the greedy
`\s+` run back one character at a time, so this finds the largest `w`
with `1 ≤ w < ws.length` such that `ws[w]` (the would-be first `(.+)`
character) is not a newline. -/
def findWsSplit (ws : List Char) : Nat → Option Nat
  | 0 => none
  | w + 1 =>
    match ws.get? (w + 1) with
    | some c => if c = '\n' then findWsSplit ws w else some (w + 1)
    | none => findWsSplit ws w

/-- Matches `\s+(.+)$` at the start of `cs` (the tail shared by the
`HEADER` and `LIST_ITEM` patterns, both compiled with `re.MULTILINE`):
the whitespace run is greedy — it may cross newlines — and is given back
from the right until `(.+)` can match at least one non-newline character;
`$` then holds before the next newline or at the end. Returns the matched
span and the `(.+)` capture. -/
def matchWsText (cs : List Char) : Option (List Char × List Char) :=
  let ws := cs.takeWhile isSpacePy
  if ws.isEmpty then none
  else
    let rest := cs.drop ws.length
    if rest.isEmpty then
      match findWsSplit ws (ws.length - 1) with
      | none => none
      | some w =>
        let text := (ws.drop w).takeWhile (fun c => c ≠ '\n')
        some (ws.take w ++ text, text)
    else
      let text := rest.takeWhile (fun c => c ≠ '\n')
      some (ws ++ text, text)

/-- `MarkdownParser.HEADER` = `^(#{1,6})\s+(.+)$` at a line start: returns
the match, the header text capture and the level. A run of more than six
`#` can never match (the shortened `#{1,6}` is always followed by another
`#`, not whitespace). -/
def matchHEADERAt (cs : List Char) :
    Option (List Char × List Char × Nat) :=
  let hashes := cs.takeWhile (fun c => c = '#')
  let n := hashes.length
  if n = 0 ∨ n > 6 then none
  else
    match matchWsText (cs.drop n) with
    | none => none
    | some (consumed, text) => some (hashes ++ consumed, text, n)

/-- `MarkdownParser.LIST_ITEM` = `^[\s]*[-*+]\s+(.+)$` at a line start:
leading whitespace (the bullet characters are not whitespace, so the
greedy `[\s]*` run never backtracks), a bullet, then the shared
`\s+(.+)$` tail. -/
def matchLISTAt (cs : List Char) : Option (List Char × List Char) :=
  let ws0 := cs.takeWhile isSpacePy
  let rest0 := cs.drop ws0.length
  match rest0 with
  | b :: rest1 =>
    if b = '-' ∨ b = '*' ∨ b = '+' then
      match matchWsText rest1 with
      | none => none
      | some (consumed, text) => some (ws0 ++ b :: consumed, text)
    else none
  | [] => none

/-- The non-greedy close of `CODE_BLOCK`: the shortest body until the
next fence, with the remainder after the fence. -/
def findFence : List Char → Option (List Char × List Char)
  | [] => none
  | c :: rest =>
    if "```".data.isPrefixOf (c :: rest) then some ([], (c :: rest).drop 3)
    else
      match findFence rest with
      | some (b, r) => some (c :: b, r)
      | none => none

/-- `MarkdownParser.CODE_BLOCK` = `` ```(\w*)\n(.*?)``` `` with
`re.DOTALL`: opening fence, greedy `\w*` language tag (its characters are
never newlines, so no backtracking helps), a newline, then the shortest
body up to a closing fence. Captures `(lang, body)`. -/
def matchCODEBLOCKAt (cs : List Char) :
    Option (List Char × List Char × List Char) :=
  if "```".data.isPrefixOf cs then
    let rest := cs.drop 3
    let lang := rest.takeWhile isWordChar
    match rest.drop lang.length with
    | '\n' :: body0 =>
      match findFence body0 with
      | some (body, _) =>
        some ("```".data ++ lang ++ '\n' :: (body ++ "```".data), lang, body)
      | none => none
    | _ => none
  else none

/-- The backtick character, the `INLINE_CODE` delimiter. -/
def btick : Char := "`".data.getD 0 ' '

/-- `MarkdownParser.INLINE_CODE` = one backtick, one or more non-backtick
characters, one backtick. -/
def matchINLINEAt : List Char → Option (List Char × List Char)
  | c :: rest =>
    if c = btick then
      let body := rest.takeWhile (fun c2 => c2 ≠ btick)
      if body.isEmpty then none
      else
        match rest.drop body.length with
        | c2 :: _ =>
          if c2 = btick then some (c :: (body ++ [c2]), body) else none
        | [] => none
    else none
  | [] => none

/-- `MarkdownParser.LINK` = `\[([^\]]+)\]\(([^\)]+)\)`. Captures
`(text, url)`. -/
def matchLINKAt : List Char → Option (List Char × List Char × List Char)
  | '[' :: rest =>
    let txt := rest.takeWhile (fun c => c ≠ ']')
    if txt.isEmpty then none
    else
      match rest.drop txt.length with
      | ']' :: '(' :: rest2 =>
        let url := rest2.takeWhile (fun c => c ≠ ')')
        if url.isEmpty then none
        else
          match rest2.drop url.length with
          | ')' :: _ =>
            some ('[' :: (txt ++ ']' :: '(' :: (url ++ [')'])), txt, url)
          | _ => none
      | _ => none
  | _ => none

/-- `MarkdownParser.parse`: headers, code blocks, inline code, links,
URLs, list items — in the order the source visits its six patterns. -/
def MarkdownParser.parse (content filepath : String) : List Token :=
  let cs := content.data
  let fuel := cs.length + 1
  let headers := (finditerLineStart matchHEADERAt fuel true cs).map
    (fun mb => create_token .HEADER (pyStrip (String.mk mb.2.1))
      (String.mk mb.1) filepath none none
      (some ("level_" ++ toString mb.2.2)))
  let codeblocks := (finditerG matchCODEBLOCKAt fuel cs).map
    (fun mb =>
      let lang := if mb.2.1.isEmpty then "text" else String.mk mb.2.1
      create_token .CODE_BLOCK (pyStrip (String.mk mb.2.2))
        (String.mk mb.1) filepath none none (some lang))
  let inlines := (finditerG matchINLINEAt fuel cs).map
    (fun mb => create_token .INLINE_CODE (String.mk mb.2) (String.mk mb.1)
      filepath none none none)
  let links := (finditerG matchLINKAt fuel cs).map
    (fun mb => create_token .REFERENCE (String.mk mb.2.2) (String.mk mb.1)
      filepath none none (some (String.mk mb.2.1)))
  let urls := (finditerG (matchSchemeAt
      (fun c => ¬ (isSpacePy c ∨ c = ')'))) fuel cs).map
    (fun mb => create_token .URL (String.mk mb.1) (String.mk mb.1)
      filepath none none none)
  let listitems := (finditerLineStart matchLISTAt fuel true cs).map
    (fun mb => create_token .LIST_ITEM (pyStrip (String.mk mb.2))
      (String.mk mb.1) filepath none none none)
  headers ++ codeblocks ++ inlines ++ links ++ urls ++ listitems

/-! ### hashlib.sha256

`compute_hash` calls `hashlib.sha256(content.encode('utf-8')).hexdigest()`;
the external library is embedded as the SHA-256 algorithm itself (FIPS
180-4), over `Nat` with explicit reduction modulo `2^32`. -/

/-- UTF-8 encoding of one character. -/
def utf8Char (c : Char) : List Nat :=
  let n := c.toNat
  if n < 0x80 then [n]
  else if n < 0x800 then [0xC0 + n / 0x40, 0x80 + n % 0x40]
  else if n < 0x10000 then
    [0xE0 + n / 0x1000, 0x80 + n / 0x40 % 0x40, 0x80 + n % 0x40]
  else
    [0xF0 + n / 0x40000, 0x80 + n / 0x1000 % 0x40, 0x80 + n / 0x40 % 0x40,
      0x80 + n % 0x40]

/-- `content.encode('utf-8')` as a byte list. -/
def utf8Encode (s : String) : List Nat := (s.data.map utf8Char).flatten

def add32 (a b : Nat) : Nat := (a + b) % 4294967296

def rotr32 (n x : Nat) : Nat :=
  ((x >>> n) ||| (x <<< (32 - n))) % 4294967296

def not32 (x : Nat) : Nat := x ^^^ 4294967295

def bigS0 (x : Nat) : Nat := rotr32 2 x ^^^ rotr32 13 x ^^^ rotr32 22 x

def bigS1 (x : Nat) : Nat := rotr32 6 x ^^^ rotr32 11 x ^^^ rotr32 25 x

def smallS0 (x : Nat) : Nat := rotr32 7 x ^^^ rotr32 18 x ^^^ (x >>> 3)

def smallS1 (x : Nat) : Nat := rotr32 17 x ^^^ rotr32 19 x ^^^ (x >>> 10)

def chF (x y z : Nat) : Nat := (x &&& y) ^^^ (not32 x &&& z)

def majF (x y z : Nat) : Nat := (x &&& y) ^^^ (x &&& z) ^^^ (y &&& z)

/-- Bisection for the greatest `x ≤ hi` with `f x ≤ m` (`f` monotone). -/
def bisectRoot (f : Nat → Nat) (m : Nat) : Nat → Nat → Nat → Nat
  | 0, lo, _ => lo
  | fuel + 1, lo, hi =>
    if hi ≤ lo then lo
    else
      let mid := (lo + hi + 1) / 2
      if f mid ≤ m then bisectRoot f m fuel mid hi
      else bisectRoot f m fuel lo (mid - 1)

/-- Integer cube root (for inputs below `2 ^ 120`). -/
def icbrt (m : Nat) : Nat := bisectRoot (fun x => x * x * x) m 64 0 (2 ^ 40)

/-- Integer square root (for inputs below `2 ^ 80`). -/
def isqrtN (m : Nat) : Nat := bisectRoot (fun x => x * x) m 64 0 (2 ^ 40)

/-- The first sixty-four primes. -/
def first64Primes : List Nat :=
  [2, 3, 5, 7, 11, 13, 17, 19, 23, 29, 31, 37, 41, 43, 47, 53, 59, 61,
   67, 71, 73, 79, 83, 89, 97, 101, 103, 107, 109, 113, 127, 131, 137,
   139, 149, 151, 157, 163, 167, 173, 179, 181, 191, 193, 197, 199, 211,
   223, 227, 229, 233, 239, 241, 251, 257, 263, 269, 271, 277, 281, 283,
   293, 307, 311]

/-- The SHA-256 round constants, as FIPS 180-4 defines them: the first 32
bits of the fractional parts of the cube roots of the first sixty-four
primes (validated against the standard `"abc"` test vector below). -/
def sha256K : List Nat :=
  first64Primes.map (fun p => icbrt (p * 2 ^ 96) % 2 ^ 32)

/-- The SHA-256 initial hash state: the first 32 bits of the fractional
parts of the square roots of the first eight primes. -/
def sha256H0 : List Nat :=
  (first64Primes.take 8).map (fun p => isqrtN (p * 2 ^ 64) % 2 ^ 32)

/-- Big-endian byte expansion to the given width. -/
def beBytes : Nat → Nat → List Nat
  | 0, _ => []
  | n + 1, v => beBytes n (v / 256) ++ [v % 256]

/-- SHA-256 padding: `0x80`, zeros to 56 mod 64, 8-byte bit length. -/
def padMessage (msg : List Nat) : List Nat :=
  msg ++ [0x80] ++ List.replicate ((119 - msg.length % 64) % 64) 0 ++
    beBytes 8 (8 * msg.length)

/-- Split into 64-byte blocks. -/
def chunkAux : Nat → List Nat → List (List Nat)
  | 0, _ => []
  | fuel + 1, l =>
    if l.isEmpty then [] else l.take 64 :: chunkAux fuel (l.drop 64)

/-- Four big-endian bytes per 32-bit word. -/
def toWords : List Nat → List Nat
  | b0 :: b1 :: b2 :: b3 :: rest =>
    (b0 * 16777216 + b1 * 65536 + b2 * 256 + b3) :: toWords rest
  | _ => []

/-- The 64-entry message schedule. -/
def sha256Schedule (w16 : List Nat) : List Nat :=
  (List.range 64).foldl (fun acc t =>
    if t < 16 then acc ++ [w16.getD t 0]
    else
      acc ++ [add32 (add32 (smallS1 (acc.getD (t - 2) 0)) (acc.getD (t - 7) 0))
        (add32 (smallS0 (acc.getD (t - 15) 0)) (acc.getD (t - 16) 0))]) []

/-- One compression round over a 64-byte block. -/
def sha256Compress (h : List Nat) (block : List Nat) : List Nat :=
  let w := sha256Schedule (toWords block)
  let st0 := (h.getD 0 0, h.getD 1 0, h.getD 2 0, h.getD 3 0,
    h.getD 4 0, h.getD 5 0, h.getD 6 0, h.getD 7 0)
  let fin := (w.zip sha256K).foldl (fun st wk =>
    let (a, b, c, d, e, f, g, hh) := st
    let t1 := add32 (add32 (add32 hh (bigS1 e)) (add32 (chF e f g) wk.2)) wk.1
    let t2 := add32 (bigS0 a) (majF a b c)
    (add32 t1 t2, a, b, c, add32 d t1, e, f, g)) st0
  [add32 (h.getD 0 0) fin.1, add32 (h.getD 1 0) fin.2.1,
   add32 (h.getD 2 0) fin.2.2.1, add32 (h.getD 3 0) fin.2.2.2.1,
   add32 (h.getD 4 0) fin.2.2.2.2.1, add32 (h.getD 5 0) fin.2.2.2.2.2.1,
   add32 (h.getD 6 0) fin.2.2.2.2.2.2.1, add32 (h.getD 7 0) fin.2.2.2.2.2.2.2]

/-- SHA-256 digest bytes of a byte message. -/
def sha256Digest (msg : List Nat) : List Nat :=
  let padded := padMessage msg
  ((((chunkAux padded.length padded).foldl sha256Compress sha256H0).map
    (beBytes 4)).flatten)

def hexChar (n : Nat) : Char := "0123456789abcdef".data.getD n '0'

def hexStr (bs : List Nat) : String :=
  String.mk ((bs.map (fun b => [hexChar (b / 16), hexChar (b % 16)])).flatten)

/-- `compute_hash`: SHA-256 hex digest of the UTF-8 encoded content. -/
def compute_hash (content : String) : String :=
  hexStr (sha256Digest (utf8Encode content))

/-! ### Structured-format parsers (YAML, JSON, HCL)

The external loaders (`ruamel.yaml`'s `YAML.load`, `json.loads`,
`hcl2.loads`) enter as parameters returning a `PyValue` tree or an error
(a raised parse exception); the walks over the loaded tree are the
source's own code. -/

/-- Model of the parse tree returned by the structured-format libraries:
strings, mappings (keys already rendered to strings, as `str(k)` does),
sequences, and any other scalar (numbers, booleans, null — ignored by
every walk in the source). -/
inductive PyValue where
  | str : String → PyValue
  | dict : List (String × PyValue) → PyValue
  | list : List PyValue → PyValue
  | other : PyValue

/-- `".".join(path)`. -/
def joinDot (path : List String) : String := String.intercalate "." path

mutual

/-- `YAMLParser._walk`. -/
def yamlWalk (fp : String) : PyValue → List String → List Token
  | .str s, path =>
    [create_token .VALUE s s fp none none (some (joinDot path))]
  | .dict kvs, path => yamlWalkPairs fp kvs path
  | .list vs, path => yamlWalkSeq fp vs path 0
  | .other, _ => []

def yamlWalkPairs (fp : String) :
    List (String × PyValue) → List String → List Token
  | [], _ => []
  | (k, v) :: rest, path =>
    create_token .KEY k k fp none none (some (joinDot path)) ::
      (yamlWalk fp v (path ++ [k]) ++ yamlWalkPairs fp rest path)

def yamlWalkSeq (fp : String) :
    List PyValue → List String → Nat → List Token
  | [], _, _ => []
  | v :: rest, path, i =>
    yamlWalk fp v (path ++ ["[" ++ toString i ++ "]"]) ++
      yamlWalkSeq fp rest path (i + 1)

end

/-- `YAMLParser.parse`: `[]` when the library is missing; a load failure
is caught (warning printed) leaving the token list empty. -/
def YAMLParser.parse (hasYAML : Bool)
    (yamlLoad : String → Except String PyValue) (content fp : String) :
    List Token :=
  if ¬ hasYAML then []
  else
    match yamlLoad content with
    | .error _ => []
    | .ok data => yamlWalk fp data []

mutual

/-- `JSONParser._walk` (same shape as the YAML walk; keys of a JSON
object are strings already). -/
def jsonWalk (fp : String) : PyValue → List String → List Token
  | .str s, path =>
    [create_token .VALUE s s fp none none (some (joinDot path))]
  | .dict kvs, path => jsonWalkPairs fp kvs path
  | .list vs, path => jsonWalkSeq fp vs path 0
  | .other, _ => []

def jsonWalkPairs (fp : String) :
    List (String × PyValue) → List String → List Token
  | [], _ => []
  | (k, v) :: rest, path =>
    create_token .KEY k k fp none none (some (joinDot path)) ::
      (jsonWalk fp v (path ++ [k]) ++ jsonWalkPairs fp rest path)

def jsonWalkSeq (fp : String) :
    List PyValue → List String → Nat → List Token
  | [], _, _ => []
  | v :: rest, path, i =>
    jsonWalk fp v (path ++ ["[" ++ toString i ++ "]"]) ++
      jsonWalkSeq fp rest path (i + 1)

end

/-- `JSONParser.parse`: a `json.loads` failure is caught, yielding `[]`. -/
def JSONParser.parse (jsonLoad : String → Except String PyValue)
    (content fp : String) : List Token :=
  match jsonLoad content with
  | .error _ => []
  | .ok data => jsonWalk fp data []

mutual

/-- `HCLParser._extract_literals`. -/
def hclExtract (fp : String) : PyValue → List Token
  | .str s => [create_token .VALUE s s fp none none none]
  | .dict kvs => hclExtractPairs fp kvs
  | .list vs => hclExtractList fp vs
  | .other => []

def hclExtractPairs (fp : String) : List (String × PyValue) → List Token
  | [] => []
  | (_, v) :: rest => hclExtract fp v ++ hclExtractPairs fp rest

def hclExtractList (fp : String) : List PyValue → List Token
  | [] => []
  | v :: rest => hclExtract fp v ++ hclExtractList fp rest

end

/-- The scan of `HCLParser._fallback_parse`'s pattern `"([^"]*)"`: the
inner text of every double-quoted string, left to right, non-overlapping
(an opening quote, any run of non-quote characters, a closing quote). -/
def scanQuotedAux : List Char → Option (List Char) → List String
  | [], _ => []
  | '"' :: rest, none => scanQuotedAux rest (some [])
  | '"' :: rest, some acc => String.mk acc.reverse :: scanQuotedAux rest none
  | _ :: rest, none => scanQuotedAux rest none
  | c :: rest, some acc => scanQuotedAux rest (some (c :: acc))

/-- `HCLParser._fallback_parse`: regex pass over double-quoted strings. -/
def HCLParser.fallback_parse (content fp : String) : List Token :=
  (scanQuotedAux content.data none).map (fun s =>
    create_token .QUOTED_STRING s ("\"" ++ s ++ "\"") fp none none none)

/-- `HCLParser.parse`: fallback when the library is missing or the load
raises; otherwise literals extracted from the loaded structure. -/
def HCLParser.parse (hasHCL : Bool)
    (hclLoad : String → Except String PyValue) (content fp : String) :
    List Token :=
  if ¬ hasHCL then HCLParser.fallback_parse content fp
  else
    match hclLoad content with
    | .error _ => HCLParser.fallback_parse content fp
    | .ok data => hclExtract fp data

/-! ### ShellParser -/

def isUpperUnd (c : Char) : Bool := ('A' ≤ c && c ≤ 'Z') || c = '_'

def isUpperDigitUnd (c : Char) : Bool := isUpperUnd c || c.isDigit

/-- `re.finditer` reporting match positions (for line/column stamping). -/
def finditerPos (matchAt : List Char → Option (List Char × β)) :
    Nat → Nat → List Char → List (Nat × List Char × β)
  | 0, _, _ => []
  | _ + 1, _, [] => []
  | fuel + 1, pos, c :: rest =>
    match matchAt (c :: rest) with
    | some (m, b) =>
      if m.isEmpty then finditerPos matchAt fuel (pos + 1) rest
      else (pos, m, b) :: finditerPos matchAt fuel (pos + m.length)
        ((c :: rest).drop m.length)
    | none => finditerPos matchAt fuel (pos + 1) rest

/-- `ShellParser.QUOTED` = `(['"])(.*?)\1` within one line: a quote, the
shortest run of other characters, the same quote. -/
def matchSHQUOTEDAt : List Char → Option (List Char × List Char)
  | c :: rest =>
    if c = '\'' ∨ c = '"' then
      let body := rest.takeWhile (fun c2 => c2 ≠ c)
      match rest.drop body.length with
      | c2 :: _ => if c2 = c then some (c :: (body ++ [c]), body) else none
      | [] => none
    else none
  | [] => none

/-- `ShellParser.ASSIGNMENT` =
`^\s*([A-Z_][A-Z0-9_]*)=(["\']?)([^"\']+)\2` applied to one line (the
`^` anchor means at most one match, at the line start). Returns
(group0, name, value). When the optional quote is present the closing
backreference must follow the maximal non-quote run — giving characters
back cannot produce a quote, so no further backtracking exists; with no
opening quote the backreference is empty and the greedy run stands. -/
def matchSHASSIGN (line : List Char) :
    Option (List Char × List Char × List Char) :=
  let ws := line.takeWhile isSpacePy
  let rest := line.drop ws.length
  match rest with
  | c :: _ =>
    if ¬ isUpperUnd c then none
    else
      let name := rest.takeWhile isUpperDigitUnd
      match rest.drop name.length with
      | '=' :: rest2 =>
        match rest2 with
        | q :: rest3 =>
          if q = '"' ∨ q = '\'' then
            let body := rest3.takeWhile (fun c2 => ¬ (c2 = '"' ∨ c2 = '\''))
            if body.isEmpty then none
            else
              match rest3.drop body.length with
              | q2 :: _ =>
                if q2 = q then
                  some (ws ++ name ++ '=' :: q :: (body ++ [q2]), name, body)
                else none
              | [] => none
          else
            let body := rest2.takeWhile (fun c2 => ¬ (c2 = '"' ∨ c2 = '\''))
            if body.isEmpty then none
            else some (ws ++ name ++ '=' :: body, name, body)
        | [] => none
      | _ => none
  | [] => none

/-- `ShellParser.VARIABLE` = `\$\{?([A-Za-z_][A-Za-z0-9_]*)\}?`: both
optional braces are taken greedily and independently. -/
def matchSHVARAt : List Char → Option (List Char × List Char)
  | '$' :: rest =>
    let (braced, rest1) :=
      match rest with
      | '{' :: r => (true, r)
      | _ => (false, rest)
    match rest1 with
    | c :: _ =>
      if ¬ (c.isAlpha || c = '_') then none
      else
        let name := rest1.takeWhile (fun c2 => c2.isAlphanum || c2 = '_')
        let rest2 := rest1.drop name.length
        let closing :=
          match rest2 with
          | '}' :: _ => true
          | _ => false
        some ('$' :: ((if braced then ['{'] else []) ++ name ++
          (if closing then ['}'] else [])), name)
    | [] => none
  | _ => none

/-- `ShellParser.COMMENT` = `^\s*#\s*(.+)$` on one line: when everything
after `#` is whitespace, the greedy inner `\s*` gives back exactly one
character for `(.+)` (a line contains no newline, so `$` holds at its
end). -/
def matchSHCOMMENT (line : List Char) :
    Option (List Char × List Char) :=
  let ws := line.takeWhile isSpacePy
  match line.drop ws.length with
  | '#' :: rest =>
    let ws2 := rest.takeWhile isSpacePy
    let rest2 := rest.drop ws2.length
    if rest2.isEmpty then
      if ws2.isEmpty then none
      else some (ws ++ '#' :: ws2, ws2.drop (ws2.length - 1))
    else some (ws ++ '#' :: (ws2 ++ rest2), rest2)
  | _ => none

/-- `ShellParser.parse`: per line (1-based), quoted strings, the
assignment, variable references, the comment — in the source's order. -/
def ShellParser.parse (content filepath : String) : List Token :=
  (List.enumFrom 1 (splitlines content)).foldl
    (fun tokens il =>
      let i := il.1
      let line := il.2
      let quoted := (finditerPos matchSHQUOTEDAt (line.length + 1) 0 line).map
        (fun pm => create_token .QUOTED_STRING (String.mk pm.2.2)
          (String.mk pm.2.1) filepath (some i) (some (pm.1 + 1)) none)
      let assigns :=
        match matchSHASSIGN line with
        | some (m, name, value) =>
          [create_token .ASSIGNMENT (String.mk value) (String.mk m)
            filepath (some i) none (some (String.mk name))]
        | none => []
      let vars := (finditerPos matchSHVARAt (line.length + 1) 0 line).map
        (fun pm => create_token .VARIABLE (String.mk pm.2.2)
          (String.mk pm.2.1) filepath (some i) (some (pm.1 + 1)) none)
      let comments :=
        match matchSHCOMMENT line with
        | some (m, g1) =>
          [create_token .COMMENT (String.mk g1) (String.mk m) filepath
            (some i) none none]
        | none => []
      tokens ++ quoted ++ assigns ++ vars ++ comments)
    []

/-! ### DockerfileParser -/

/-- Case-insensitive prefix test (`re.IGNORECASE`, ASCII). -/
def ciIsPrefixOf (pat cs : List Char) : Bool :=
  decide ((cs.take pat.length).map Char.toLower = pat.map Char.toLower)

/-- `DockerfileParser.FROM` = `^FROM\s+([^\s]+)` (`re.M | re.I`): the
keyword, a greedy whitespace run (it may cross newlines), a nonempty
non-whitespace run. -/
def matchDFFROM (cs : List Char) : Option (List Char × List Char) :=
  if ciIsPrefixOf "from".data cs then
    let rest := cs.drop 4
    let ws := rest.takeWhile isSpacePy
    if ws.isEmpty then none
    else
      let rest2 := rest.drop ws.length
      let img := rest2.takeWhile (fun c => ¬ isSpacePy c)
      if img.isEmpty then none
      else some (cs.take 4 ++ ws ++ img, img)
  else none

/-- Try the `\s*` lengths from the greedy maximum downward (the regex
gives a greedy `\s*` back one character at a time). -/
def tryWsDesc (k : Nat → Option α) : Nat → Option α
  | 0 => k 0
  | n + 1 => (k (n + 1)).orElse fun _ => tryWsDesc k n

/-- The `\s*=?\s*(.+)$` tail of the `ENV` pattern, in the regex's
backtracking order: each `\s*` greedy, `=?` preferring to consume; the
tail succeeds when a non-newline character starts the `(.+)` capture,
which then runs to the line end. Returns (consumed, value). -/
def matchKVTail (cs : List Char) : Option (List Char × List Char) :=
  tryWsDesc (fun w1 =>
    let afterW1 := cs.drop w1
    let tryEq (eq : Bool) : Option (List Char × List Char) :=
      let afterEq := if eq then afterW1.drop 1 else afterW1
      tryWsDesc (fun w2 =>
        match afterEq.drop w2 with
        | c :: _ =>
          if c = '\n' then none
          else
            let v := (afterEq.drop w2).takeWhile (fun c2 => c2 ≠ '\n')
            some (cs.take w1 ++ (if eq then ['='] else []) ++
              afterEq.take w2 ++ v, v)
        | [] => none) (afterEq.takeWhile isSpacePy).length
    match afterW1 with
    | '=' :: _ => (tryEq true).orElse fun _ => tryEq false
    | _ => tryEq false) (cs.takeWhile isSpacePy).length

/-- Name-length backtracking shared by `ENV`: the greedy
`[A-Z_][A-Z0-9_]*` run is given back from the right until the key-value
tail matches. Returns (group0, name, value). -/
def matchDFNameLen (kw ws rest2 : List Char) :
    Nat → Option (List Char × List Char × List Char)
  | 0 => none
  | l + 1 =>
    match matchKVTail (rest2.drop (l + 1)) with
    | some (consumed, v) =>
      some (kw ++ ws ++ rest2.take (l + 1) ++ consumed, rest2.take (l + 1), v)
    | none => matchDFNameLen kw ws rest2 l

/-- `DockerfileParser.ENV` = `^ENV\s+([A-Z_][A-Z0-9_]*)\s*=?\s*(.+)$`
(`re.M | re.I` — the letter classes match both cases). -/
def matchDFENV (cs : List Char) :
    Option (List Char × List Char × List Char) :=
  if ciIsPrefixOf "env".data cs then
    let rest := cs.drop 3
    let ws := rest.takeWhile isSpacePy
    if ws.isEmpty then none
    else
      let rest2 := rest.drop ws.length
      match rest2 with
      | c :: _ =>
        if ¬ (c.isAlpha || c = '_') then none
        else
          matchDFNameLen (cs.take 3) ws rest2
            (rest2.takeWhile isWordChar).length
      | [] => none
  else none

/-- `DockerfileParser.ARG` = `^ARG\s+([A-Z_][A-Z0-9_]*)\s*=?\s*(.*)$`:
with `(.*)` allowed to be empty the greedy components never backtrack. -/
def matchDFARG (cs : List Char) :
    Option (List Char × List Char × List Char) :=
  if ciIsPrefixOf "arg".data cs then
    let rest := cs.drop 3
    let ws := rest.takeWhile isSpacePy
    if ws.isEmpty then none
    else
      let rest2 := rest.drop ws.length
      match rest2 with
      | c :: _ =>
        if ¬ (c.isAlpha || c = '_') then none
        else
          let name := rest2.takeWhile isWordChar
          let rest3 := rest2.drop name.length
          let ws1 := rest3.takeWhile isSpacePy
          let rest4 := rest3.drop ws1.length
          let (eqc, rest5) :=
            match rest4 with
            | '=' :: r => (['='], r)
            | _ => (([] : List Char), rest4)
          let ws2 := rest5.takeWhile isSpacePy
          let v := (rest5.drop ws2.length).takeWhile (fun c2 => c2 ≠ '\n')
          some (cs.take 3 ++ ws ++ name ++ ws1 ++ eqc ++ ws2 ++ v, name, v)
      | [] => none
  else none

/-- `DockerfileParser.LABEL` = `^LABEL\s+([^\s=]+)="?([^"]*)"?`: the key
run stops at whitespace or `=` and must be followed by a literal `=`;
both optional quotes are taken greedily. Returns (group0, key). -/
def matchDFLABEL (cs : List Char) : Option (List Char × List Char) :=
  if ciIsPrefixOf "label".data cs then
    let rest := cs.drop 5
    let ws := rest.takeWhile isSpacePy
    if ws.isEmpty then none
    else
      let rest2 := rest.drop ws.length
      let key := rest2.takeWhile (fun c => ¬ (isSpacePy c ∨ c = '='))
      if key.isEmpty then none
      else
        match rest2.drop key.length with
        | '=' :: rest3 =>
          let (openq, rest4) :=
            match rest3 with
            | '"' :: r => (['"'], r)
            | _ => (([] : List Char), rest3)
          let body := rest4.takeWhile (fun c => c ≠ '"')
          let closeq :=
            match rest4.drop body.length with
            | '"' :: _ => ['"']
            | _ => ([] : List Char)
          some (cs.take 5 ++ ws ++ key ++ '=' :: (openq ++ body ++ closeq),
            key)
        | _ => none
  else none

/-- `DockerfileParser.parse`: base images, environment variables, build
arguments, labels — in the source's order of its four passes. -/
def DockerfileParser.parse (content filepath : String) : List Token :=
  let cs := content.data
  let fuel := cs.length + 1
  let froms := (finditerLineStart matchDFFROM fuel true cs).map
    (fun mb => create_token .REFERENCE (String.mk mb.2) (String.mk mb.1)
      filepath none none (some "base_image"))
  let envs := (finditerLineStart matchDFENV fuel true cs).map
    (fun mb => create_token .ASSIGNMENT (pyStrip (String.mk mb.2.2))
      (String.mk mb.1) filepath none none (some (String.mk mb.2.1)))
  let args := (finditerLineStart matchDFARG fuel true cs).map
    (fun mb => create_token .ASSIGNMENT (pyStrip (String.mk mb.2.2))
      (String.mk mb.1) filepath none none
      (some ("arg:" ++ String.mk mb.2.1)))
  let labels := (finditerLineStart matchDFLABEL fuel true cs).map
    (fun mb => create_token .KEY (String.mk mb.2) (String.mk mb.1)
      filepath none none (some "label"))
  froms ++ envs ++ args ++ labels

/-! ### Parser registry, link/header extraction, process_file -/

/-- `pathlib.Path(p).name`. -/
def pathName (p : String) : String :=
  String.mk ((p.data.reverse.takeWhile (fun c => c ≠ '/')).reverse)

/-- `pathlib.Path(p).suffix`: the extension of the final component, empty
when the only dot leads the name or ends it. -/
def pathSuffix (p : String) : String :=
  let n := (pathName p).data
  let revAfter := n.reverse.takeWhile (fun c => c ≠ '.')
  if revAfter.length = n.length then ""
  else
    let i := n.length - revAfter.length - 1
    if 0 < i ∧ i < n.length - 1 then String.mk (n.drop i) else ""

/-- Python `str.lower` (ASCII). -/
def strLower (s : String) : String := String.mk (s.data.map Char.toLower)

/-- The parser classes of `PARSER_REGISTRY`. -/
inductive ParserKind where
  | markdown | yaml | json | hcl | shell | dockerfile | text
deriving DecidableEq, Repr

/-- `PARSER_REGISTRY` lookup for an already-lowercased key (the sole
upper-case key `'Dockerfile'` is unreachable: both lookups lowercase the
probe first). -/
def registryLookup (key : String) : Option ParserKind :=
  if key = ".md" ∨ key = ".markdown" then some .markdown
  else if key = ".yaml" ∨ key = ".yml" then some .yaml
  else if key = ".json" then some .json
  else if key = ".tf" ∨ key = ".tfvars" then some .hcl
  else if key = ".sh" ∨ key = ".bash" ∨ key = ".zsh" then some .shell
  else if key = "dockerfile" then some .dockerfile
  else if key = ".txt" ∨ key = ".env" then some .text
  else none

/-- `get_parser` (renamed): exact (lowercased) filename first, then
lowercased extension, else the text fallback. -/
def selectParser (filepath : String) : ParserKind :=
  match registryLookup (strLower (pathName filepath)) with
  | some k => k
  | none => (registryLookup (strLower (pathSuffix filepath))).getD .text

/-- Presence flags plus loader behaviour of the optional external
libraries for one run. -/
structure PyEnv where
  hasYAML : Bool
  hasHCL : Bool
  yamlLoad : String → Except String PyValue
  hclLoad : String → Except String PyValue
  jsonLoad : String → Except String PyValue

/-- Dispatch `parser.parse()` for the selected class. -/
def parserParse (env : PyEnv) (k : ParserKind) (content fp : String) :
    List Token :=
  match k with
  | .markdown => MarkdownParser.parse content fp
  | .yaml => YAMLParser.parse env.hasYAML env.yamlLoad content fp
  | .json => JSONParser.parse env.jsonLoad content fp
  | .hcl => HCLParser.parse env.hasHCL env.hclLoad content fp
  | .shell => ShellParser.parse content fp
  | .dockerfile => DockerfileParser.parse content fp
  | .text => TextParser.parse content fp

/-- Python `s.startswith(pre)`. -/
def pyStartswith (pre s : String) : Bool := pre.data.isPrefixOf s.data

/-- `extract_links`: values of reference/URL tokens, stripped, kept when
nonempty and not starting with a web scheme. -/
def extract_links (tokens : List Token) : Finset String :=
  tokens.foldl (fun links t =>
    if t.token_type = .REFERENCE ∨ t.token_type = .URL then
      let link := pyStrip t.value
      if link ≠ "" ∧
          ¬ (pyStartswith "http://" link ∨ pyStartswith "https://" link) then
        insert link links
      else links
    else links) ∅

/-- `extract_headers`: values of header tokens, in order. -/
def extract_headers (tokens : List Token) : List String :=
  (tokens.filter (fun t => t.token_type == TokenType.HEADER)).map
    (fun t => t.value)

/-- `process_file`: the outcome of `safe_read` (`none` on a read failure),
the relative path computed by `filepath.relative_to(root)` and
`filepath.stat().st_mtime` are filesystem effects and enter as
parameters; the parser is selected on the relative path, `file_type` on
the full path's (lowercased) suffix with `'none'` for an empty one. -/
def process_file (env : PyEnv) (path rel_path : String)
    (content? : Option String) (mtime : Rat) : Option Document :=
  match content? with
  | none => none
  | some content =>
    let tokens := parserParse env (selectParser rel_path) content rel_path
    some {
      path := path
      relative_path := rel_path
      file_type :=
        if strLower (pathSuffix path) = "" then "none"
        else strLower (pathSuffix path)
      size := content.length
      hash := compute_hash content
      modified := mtime
      tokens := tokens
      links := extract_links tokens
      headers := extract_headers tokens
      summary := none }

/-! ### Concrete fixtures -/

/-- A run with neither optional structured-format library installed; no
loader is ever consulted. -/
def env0 : PyEnv :=
  { hasYAML := false, hasHCL := false,
    yamlLoad := fun _ => .error "unavailable",
    hclLoad := fun _ => .error "unavailable",
    jsonLoad := fun _ => .error "unavailable" }

/-- A loader standing for a missing library (never consulted when the
presence flag is false). -/
def loadFail : String → Except String PyValue :=
  fun _ => .error "unavailable"

/-- Placeholder document (only a `getD` default; never added anywhere). -/
def emptyDoc : Document :=
  { path := "", relative_path := "", file_type := "", size := 0,
    hash := "", modified := 0, tokens := [], links := ∅, headers := [],
    summary := none }

/-- A document with one token and one (dangling) link. -/
def docTok : Document :=
  { path := "/r/a.md", relative_path := "a.md", file_type := ".md",
    size := 1, hash := "h", modified := 0,
    tokens := [create_token .WORD "val" "val" "a.md" none none none],
    links := {"missing.md"}, headers := [], summary := none }

/-- The markup scenario file content. -/
def c5content : String :=
  "# Title\n\n```python\nprint(1)\n```\n\n[x](other.md)\n"

/-- The document `process_file` builds for the markup scenario. -/
def c5doc : Document :=
  (process_file env0 "docs/a.md" "a.md" (some c5content) 0).getD emptyDoc

/-- The generic text file of the path/word scenario. -/
def c1content : String := "/etc/hosts\nhosts"

/-- The document the HCL regex fallback builds for a file holding an
empty quoted string. -/
def c3doc : Document :=
  (process_file env0 "m.tf" "m.tf" (some "a = \"\"") 0).getD emptyDoc

/-- A knowledge graph with the graph engine present and one reference
edge. -/
def kgE : KnowledgeGraph :=
  { documents := [], token_index := [],
    file_relationships := [("a.md", {"b.md"})],
    graph := some {("a.md", "b.md")} }

/-- A knowledge graph without the graph engine and with no
relationships. -/
def kgN : KnowledgeGraph :=
  { documents := [], token_index := [], file_relationships := [],
    graph := none }

/-! ### Claim C1 -/

/-- The suppression relation of the word pass: a later word token's text
is never a substring of any earlier token's value. -/
def SkipR (a b : Token) : Prop :=
  b.token_type = .WORD → substrOf b.value a.value = false

theorem wordStep_pairwise {fp : String} {i : Nat} {tokens : List Token}
    (pm : Nat × List Char) (h : tokens.Pairwise SkipR) :
    (wordStep fp i tokens pm).Pairwise SkipR := by
  unfold wordStep
  by_cases hany : tokens.any (fun t => substrOf (String.mk pm.2) t.value) = true
  · simpa [hany] using h
  · rw [if_neg hany]
    apply List.pairwise_append.mpr
    refine ⟨h, List.pairwise_singleton _ _, ?_⟩
    intro a ha b hb
    simp only [List.mem_singleton] at hb
    subst hb
    intro _
    simp only [List.any_eq_true, not_exists, not_and] at hany
    show substrOf (create_token .WORD (String.mk pm.2) (String.mk pm.2) fp
      (some i) (some (pm.1 + 1)) none).value a.value = false
    simp only [create_token]
    cases hsub : substrOf (String.mk pm.2) a.value with
    | false => rfl
    | true => exact absurd hsub (hany a ha)

theorem foldl_wordStep_pairwise (fp : String) (i : Nat)
    (pms : List (Nat × List Char)) :
    ∀ tokens : List Token, tokens.Pairwise SkipR →
      (pms.foldl (wordStep fp i) tokens).Pairwise SkipR := by
  induction pms with
  | nil => intro t h; exact h
  | cons pm pms ih => intro t h; exact ih _ (wordStep_pairwise pm h)

theorem foldl_lineStep_pairwise (fp : String)
    (ils : List (Nat × List Char)) :
    ∀ tokens : List Token, tokens.Pairwise SkipR →
      (ils.foldl (lineStep fp) tokens).Pairwise SkipR := by
  induction ils with
  | nil => intro t h; exact h
  | cons il ils ih =>
    intro t h
    exact ih _ (foldl_wordStep_pairwise fp il.1 _ t h)

theorem textBaseTokens_not_word (content fp : String) :
    ∀ t ∈ textBaseTokens content fp, t.token_type ≠ .WORD := by
  intro t ht
  unfold textBaseTokens at ht
  rcases List.mem_append.mp ht with h | h <;>
    · obtain ⟨mb, _, hmb⟩ := List.mem_map.mp h
      subst hmb
      simp [create_token]

theorem pairwise_of_no_words :
    ∀ l : List Token, (∀ b ∈ l, b.token_type ≠ .WORD) → l.Pairwise SkipR := by
  intro l
  induction l with
  | nil => intro _; exact List.Pairwise.nil
  | cons a t ih =>
    intro h
    refine List.Pairwise.cons ?_ (ih fun b hb => h b (List.mem_cons_of_mem a hb))
    intro a' ha' hw
    exact absurd hw (h a' (List.mem_cons_of_mem a ha'))

/-- C1 (amended): the fallback text parser produces a PATH token capturing
`/etc/hosts`, but the skip rule suppresses any word whose text is a
substring of any already-captured token's value anywhere — not only the
same fragment at the same position — so no separate WORD token for the
standalone `hosts` occurrence is produced. In general, no WORD token's
value is a substring of any earlier token's value in a parse. -/
theorem text_parser_word_skip :
    (∀ content filepath : String,
      (TextParser.parse content filepath).Pairwise SkipR)
    ∧ (TextParser.parse c1content "notes.txt").any
        (fun t => t.token_type = .PATH ∧ t.value = "/etc/hosts") = true
    ∧ (TextParser.parse c1content "notes.txt").any
        (fun t => t.token_type = .WORD ∧ t.value = "hosts") = false := by
  refine ⟨?_, by decide, by decide⟩
  intro content fp
  exact foldl_lineStep_pairwise fp _ _
    (pairwise_of_no_words _ (textBaseTokens_not_word content fp))

/-- C1 (counterexample): on a generic text file containing `/etc/hosts`
and the bare word `hosts` on another line, the parse captures the path
but produces no WORD token for the standalone `hosts` — its text is a
substring of the captured path's value, refuting the claim as stated. -/
theorem text_parser_counterexample :
    (TextParser.parse c1content "notes.txt").any
      (fun t => t.token_type = .PATH ∧ t.value = "/etc/hosts") = true
    ∧ (TextParser.parse c1content "notes.txt").any
      (fun t => t.token_type = .WORD ∧ t.value = "hosts") = false := by
  constructor <;> decide

/-- C1 witness: the general suppression invariant applied to the
scenario file. -/
theorem text_parser_word_skip_witness :
    (TextParser.parse c1content "notes.txt").Pairwise SkipR :=
  text_parser_word_skip.1 c1content "notes.txt"

/-! ### Claim C2 -/

/-- C2 (counterexample): repeating `add_document` with the same document
does change the graph state — the token index receives the document's
token occurrences a second time. -/
theorem add_document_counterexample :
    (KnowledgeGraph.add_document
        (KnowledgeGraph.add_document (KnowledgeGraph.init false) docTok)
        docTok).token_index
      ≠ (KnowledgeGraph.add_document (KnowledgeGraph.init false)
        docTok).token_index := by
  decide

/-- C2 (amended): calling `add_document` twice with the same document
leaves `documents` (last write wins), the relationship map and the
optional graph as after one call, but appends the document's token
occurrences to the token index again — the repeated call leaves the token
index unchanged only when the document has no tokens. -/
theorem add_document_repeat :
    ∀ (kg : KnowledgeGraph) (doc : Document),
      ((kg.add_document doc).add_document doc).documents =
        (kg.add_document doc).documents
      ∧ dictLookup doc.relative_path
          ((kg.add_document doc).add_document doc).documents = some doc
      ∧ ((kg.add_document doc).add_document doc).file_relationships =
        (kg.add_document doc).file_relationships
      ∧ ((kg.add_document doc).add_document doc).graph =
        (kg.add_document doc).graph
      ∧ ((kg.add_document doc).add_document doc).token_index =
        doc.tokens.foldl (fun idx t => dictAppend t.value t idx)
          (kg.add_document doc).token_index
      ∧ (doc.tokens = [] →
        ((kg.add_document doc).add_document doc).token_index =
          (kg.add_document doc).token_index) := by
  intro kg doc
  refine ⟨?_, ?_, ?_, ?_, rfl, ?_⟩
  · exact dictSet_dictSet _ _ _ _
  · exact dictLookup_dictSet _ _ _
  · simp only [KnowledgeGraph.add_document]
    by_cases hl : doc.links.card = 0
    · simp [hl]
    · simp only [if_neg hl]
      exact dictUnion_dictUnion _ _ _
  · simp only [KnowledgeGraph.add_document]
    cases kg.graph with
    | none => rfl
    | some g =>
      simp only [Option.map_some', Option.some.injEq]
      rw [Finset.union_assoc, Finset.union_self]
  · intro h
    show (doc.tokens.foldl (fun idx t => dictAppend t.value t idx) _) = _
    rw [h]
    rfl

/-- C2 witness: the repeated-call equalities at a concrete graph and a
token-free document. -/
theorem add_document_repeat_witness :
    (((KnowledgeGraph.init false).add_document emptyDoc).add_document
        emptyDoc).token_index =
      ((KnowledgeGraph.init false).add_document emptyDoc).token_index :=
  (add_document_repeat (KnowledgeGraph.init false) emptyDoc).2.2.2.2.2 rfl

/-! ### Claim C3 -/

set_option maxRecDepth 10000 in
/-- C3 (counterexample): a `.tf` file holding an empty quoted string,
parsed through the HCL regex fallback, yields a token whose value is the
empty string, so after adding its document the token index has `""` as a
key. -/
theorem empty_token_key_counterexample :
    process_file env0 "m.tf" "m.tf" (some "a = \"\"") 0 = some c3doc
    ∧ "" ∈ dictKeys (buildKG false [c3doc]).token_index := by
  exact ⟨rfl, by decide⟩

/-- C3 (amended): every key of the token index is the value of some token
of some added document; keys are therefore non-empty whenever no added
document carries an empty-valued token, but parsers can emit empty
values (for example the HCL fallback on `""`), so empty keys can occur. -/
theorem token_index_keys :
    (∀ (hn : Bool) (docs : List Document) (k : String),
        k ∈ dictKeys (buildKG hn docs).token_index →
        ∃ d ∈ docs, ∃ t ∈ d.tokens, t.value = k)
    ∧ (∀ (hn : Bool) (docs : List Document),
        (∀ d ∈ docs, ∀ t ∈ d.tokens, t.value ≠ "") →
        ∀ k ∈ dictKeys (buildKG hn docs).token_index, k ≠ "") := by
  have base : ∀ (hn : Bool) (docs : List Document) (k : String),
      k ∈ dictKeys (buildKG hn docs).token_index →
      ∃ d ∈ docs, ∃ t ∈ d.tokens, t.value = k := by
    intro hn docs k h
    rcases tokenIndexKeys_buildAux docs (KnowledgeGraph.init hn) k h with h' | h'
    · simp [KnowledgeGraph.init, dictKeys] at h'
    · exact h'
  refine ⟨base, ?_⟩
  intro hn docs hne k hk
  obtain ⟨d, hd, t, ht, hv⟩ := base hn docs k hk
  exact hv ▸ hne d hd t ht

/-- C3 witness: the non-emptiness consequence on a run whose sole
document has only non-empty token values. -/
theorem token_index_keys_witness :
    ∀ k ∈ dictKeys (buildKG false [docTok]).token_index, k ≠ "" :=
  token_index_keys.2 false [docTok] (by decide)

/-! ### Claim C4 -/

/-- C4: `get_related_documents` returns the same set for every two values
of the depth parameter; with the graph engine present it is exactly the
ancestors united with the descendants of the path in the directed
reference graph (membership characterised by directed-path reachability,
computed without respecting the depth bound); without the engine it is
exactly the direct outgoing link targets recorded for the path. -/
theorem get_related_depth_and_reachability :
    ∀ (kg : KnowledgeGraph) (p : String) (d₁ d₂ : Nat),
      kg.get_related_documents p d₁ = kg.get_related_documents p d₂
      ∧ (∀ es, kg.graph = some es →
          ∀ q, q ∈ kg.get_related_documents p d₁ ↔
            q ≠ p ∧ (Relation.TransGen (EdgeRel es) p q ∨
              Relation.TransGen (EdgeRel es) q p))
      ∧ (kg.graph = none →
          kg.get_related_documents p d₁ =
            (dictLookup p kg.file_relationships).getD ∅) := by
  intro kg p d₁ d₂
  refine ⟨rfl, ?_, ?_⟩
  · intro es hes q
    simp only [KnowledgeGraph.get_related_documents, hes]
    by_cases hp : p ∈ graphNodes es
    · simp only [if_pos hp, Finset.mem_union, mem_nxDescendants,
        mem_nxAncestors]
      constructor
      · rintro (⟨hne, h⟩ | ⟨hne, h⟩)
        · exact ⟨hne, Or.inl h⟩
        · exact ⟨hne, Or.inr h⟩
      · rintro ⟨hne, h | h⟩
        · exact Or.inl ⟨hne, h⟩
        · exact Or.inr ⟨hne, h⟩
    · simp only [if_neg hp, Finset.not_mem_empty, false_iff]
      rintro ⟨hne, h | h⟩
      · exact hp (transGen_src_mem h)
      · exact hp (transGen_dst_mem h)
  · intro h
    simp only [KnowledgeGraph.get_related_documents, h]

/-- C4 witness: the reachability characterisation on a one-edge graph. -/
theorem get_related_depth_witness :
    "b.md" ∈ kgE.get_related_documents "a.md" 1 ↔
      "b.md" ≠ "a.md" ∧
        (Relation.TransGen (EdgeRel {("a.md", "b.md")}) "a.md" "b.md" ∨
          Relation.TransGen (EdgeRel {("a.md", "b.md")}) "b.md" "a.md") :=
  (get_related_depth_and_reachability kgE "a.md" 1 5).2.1
    {("a.md", "b.md")} rfl "b.md"

/-! ### Claim C10 -/

/-- C10: `get_related_documents` is total (the missing-node error of the
graph engine is the explicit not-a-node branch, caught to yield the empty
set) and returns the empty set on an unknown path: with the engine, any
path that is not a node of the graph; without it, any path absent from
the relationship map (the lookup defaults to the empty set). -/
theorem get_related_unknown :
    ∀ (kg : KnowledgeGraph) (p : String) (depth : Nat),
      (kg.graph = none → dictLookup p kg.file_relationships = none →
        kg.get_related_documents p depth = ∅)
      ∧ (∀ es, kg.graph = some es → p ∉ graphNodes es →
        kg.get_related_documents p depth = ∅) := by
  intro kg p depth
  constructor
  · intro hg hl
    simp [KnowledgeGraph.get_related_documents, hg, hl]
  · intro es hg hp
    simp [KnowledgeGraph.get_related_documents, hg, hp]

/-- C10 witness: a path never added, on an engine-less graph. -/
theorem get_related_unknown_witness :
    kgN.get_related_documents "ghost.md" 2 = ∅ :=
  (get_related_unknown kgN "ghost.md" 2).1 rfl rfl

/-! ### Claim C5 -/

set_option maxRecDepth 10000 in
/-- C5: the markup file `# Title` / fenced `python` block /
`[x](other.md)` yields exactly one header token (value `Title`, context
`level_1`), one code-block token (context `python`), one reference token
(value `other.md`, context `x`), and `other.md` is among the document's
outgoing links. -/
theorem markdown_scenario :
    process_file env0 "docs/a.md" "a.md" (some c5content) 0 = some c5doc
    ∧ (c5doc.tokens.filter (fun t => t.token_type = .HEADER)).map
        (fun t => (t.value, t.context)) = [("Title", some "level_1")]
    ∧ (c5doc.tokens.filter (fun t => t.token_type = .CODE_BLOCK)).map
        (fun t => t.context) = [some "python"]
    ∧ (c5doc.tokens.filter (fun t => t.token_type = .REFERENCE)).map
        (fun t => (t.value, t.context)) = [("other.md", some "x")]
    ∧ "other.md" ∈ c5doc.links := by
  refine ⟨rfl, by decide, by decide, by decide, ?_⟩
  exact Finset.mem_insert_self "other.md" ∅

/-! ### Claim C6 -/

/-- C6: every document built by `process_file` has `headers` equal to the
ordered projection of its token sequence restricted to header-kind
tokens. -/
theorem process_file_headers :
    ∀ (env : PyEnv) (path rel_path : String) (content : Option String)
      (mtime : Rat) (d : Document),
      process_file env path rel_path content mtime = some d →
      d.headers = (d.tokens.filter
        (fun t => t.token_type == TokenType.HEADER)).map (fun t => t.value) := by
  intro env path rel_path content mtime d h
  cases content with
  | none => simp [process_file] at h
  | some c =>
    simp only [process_file, Option.some.injEq] at h
    subst h
    rfl

set_option maxRecDepth 10000 in
/-- C6 witness: the header projection on the markup scenario document. -/
theorem process_file_headers_witness :
    c5doc.headers = (c5doc.tokens.filter
      (fun t => t.token_type == TokenType.HEADER)).map (fun t => t.value) :=
  process_file_headers env0 "docs/a.md" "a.md" (some c5content) 0 c5doc
    rfl

/-! ### Claim C7 -/

/-- C7: `compute_hash` is a pure function of the content — identical
input content always yields an identical digest (the embedding of
`hashlib.sha256(...).hexdigest()` depends on nothing but its argument). -/
theorem compute_hash_deterministic :
    ∀ c₁ c₂ : String, c₁ = c₂ → compute_hash c₁ = compute_hash c₂ := by
  intro c₁ c₂ h
  rw [h]

/-- C7 witness. -/
theorem compute_hash_deterministic_witness :
    ("abc" : String) = "abc" ∧ compute_hash "abc" = compute_hash "abc" :=
  ⟨rfl, compute_hash_deterministic "abc" "abc" rfl⟩

set_option maxRecDepth 10000 in
/-- Sanity check that the embedded digest is the real SHA-256 (the
FIPS 180-4 test vector for `"abc"`, matching `hashlib`). -/
theorem compute_hash_abc :
    compute_hash "abc" =
      "ba7816bf8f01cfea414140de5dae2223b00361a396177a9cb410ff61f20015ad" := by
  decide

/-! ### Claim C8 -/

/-- C8: with the structured key-value library unavailable the YAML parser
returns the empty token list on every input; with the IaC library
unavailable the HCL parser returns exactly the regex fallback's
double-quoted-string extraction, every token of which is a QUOTED_STRING
whose raw text is its value re-wrapped in quotes. -/
theorem degraded_parsers :
    ∀ (yl hl : String → Except String PyValue) (content fp : String),
      YAMLParser.parse false yl content fp = []
      ∧ HCLParser.parse false hl content fp =
          HCLParser.fallback_parse content fp
      ∧ ∀ t ∈ HCLParser.parse false hl content fp,
          t.token_type = .QUOTED_STRING ∧
            t.raw = "\"" ++ t.value ++ "\"" := by
  intro yl hl content fp
  refine ⟨rfl, rfl, ?_⟩
  intro t ht
  have ht' : t ∈ HCLParser.fallback_parse content fp := ht
  unfold HCLParser.fallback_parse at ht'
  obtain ⟨s, _, hs⟩ := List.mem_map.mp ht'
  subst hs
  exact ⟨rfl, rfl⟩

/-- C8 witness: the degraded parsers on concrete content. -/
theorem degraded_parsers_witness :
    (create_token .QUOTED_STRING "y" "\"y\"" "t.tf" none none
        none).token_type = TokenType.QUOTED_STRING ∧
      (create_token .QUOTED_STRING "y" "\"y\"" "t.tf" none none none).raw =
        "\"" ++ (create_token .QUOTED_STRING "y" "\"y\"" "t.tf" none none
          none).value ++ "\"" :=
  (degraded_parsers loadFail loadFail "x \"y\" z" "t.tf").2.2 _ (by decide)

/-! ### Claim C9 -/

/-- The rows the relational writer inserts into the `relationships`
table: one `(source, target)` pair per link of every relationship entry
(set iteration order is unspecified and `INSERT OR IGNORE` deduplicates
on the primary key, so the row set is what the table holds). -/
def sqliteRelationshipRows (kg : KnowledgeGraph) :
    Finset (String × String) :=
  kg.file_relationships.foldr (fun p acc =>
    p.2.image (fun t => (p.1, t)) ∪ acc) ∅

theorem sqliteRows_source_mem_aux (l : List (String × Finset String)) :
    ∀ row : String × String,
      row ∈ l.foldr (fun p acc => p.2.image (fun t => (p.1, t)) ∪ acc) ∅ →
      row.1 ∈ dictKeys l := by
  induction l with
  | nil => intro row h; simp at h
  | cons p rest ih =>
    intro row h
    simp only [List.foldr_cons] at h
    rcases Finset.mem_union.mp h with h' | h'
    · obtain ⟨t, _, ht⟩ := Finset.mem_image.mp h'
      subst ht
      exact List.mem_map.mpr ⟨p, List.mem_cons_self _ _, rfl⟩
    · exact List.mem_cons_of_mem _ (ih row h')

theorem sqliteRows_source_mem {kg : KnowledgeGraph}
    {row : String × String} (h : row ∈ sqliteRelationshipRows kg) :
    row.1 ∈ dictKeys kg.file_relationships :=
  sqliteRows_source_mem_aux kg.file_relationships row h

/-- C9: after any sequence of `add_document` calls, every source key of
the relationship map — hence every source of a row written to the
relational `relationships` table — is the `relative_path` of a document
present in `documents`; targets can be strings absent from `documents`
(witnessed by a dangling link). -/
theorem relationships_sources_are_documents :
    (∀ (hn : Bool) (docs : List Document),
      (∀ src ∈ dictKeys (buildKG hn docs).file_relationships,
        ∃ d, dictLookup src (buildKG hn docs).documents = some d ∧
          d.relative_path = src)
      ∧ ∀ row ∈ sqliteRelationshipRows (buildKG hn docs),
          ∃ d, dictLookup row.1 (buildKG hn docs).documents = some d ∧
            d.relative_path = row.1)
    ∧ ∃ row ∈ sqliteRelationshipRows (buildKG false [docTok]),
        row.2 ∉ dictKeys (buildKG false [docTok]).documents := by
  have main : ∀ (hn : Bool) (docs : List Document),
      ∀ src ∈ dictKeys (buildKG hn docs).file_relationships,
        ∃ d, dictLookup src (buildKG hn docs).documents = some d ∧
          d.relative_path = src := by
    intro hn docs src hsrc
    obtain ⟨hkeys, hcoh⟩ := relKeysSound_buildKG hn docs
    have hmem := hkeys src hsrc
    have hsome := dictLookup_isSome_of_mem hmem
    obtain ⟨d, hd⟩ := Option.isSome_iff_exists.mp hsome
    exact ⟨d, hd, hcoh (src, d) (dictLookup_mem hd)⟩
  refine ⟨fun hn docs => ⟨main hn docs, ?_⟩, ?_⟩
  · intro row hrow
    exact main hn docs row.1 (sqliteRows_source_mem hrow)
  · refine ⟨("a.md", "missing.md"), ?_, by decide⟩
    show ("a.md", "missing.md") ∈ sqliteRelationshipRows
      (buildKG false [docTok])
    exact Finset.mem_union_left _ (Finset.mem_image_of_mem _
      (Finset.mem_singleton_self "missing.md"))

/-- C9 witness: the source of the sole relationship of a one-document
run is that document. -/
theorem relationships_sources_witness :
    ∃ d, dictLookup "a.md" (buildKG false [docTok]).documents = some d ∧
      d.relative_path = "a.md" :=
  ((relationships_sources_are_documents).1 false [docTok]).1 "a.md"
    (by decide)

end DocStructurer
